import Mathlib

/-!
A verification development for the Citadel fault-injection protection tools
(`llvm_protector_ranked.py`, `llvm_protector.py`, `verify_protection.py`).
The Python code is shallowly embedded: every function below mirrors the
corresponding Python function statement by statement; operations that can
raise an exception in Python (list indexing past the end, division by zero)
are modelled with `Option`, where `none` means the Python process crashes.
-/

/-! ## String helpers mirroring the Python string primitives -/

/-- Whitespace characters recognized by the Python `str.strip` and `str.split`. -/
def isPySpace (c : Char) : Bool :=
  c == ' ' || c == '\t' || c == '\n' || c == '\r' || c == '\x0b' || c == '\x0c'

/-- Python `s.strip()`: drop leading and trailing whitespace. -/
def pyStrip (s : String) : String :=
  ⟨((s.data.dropWhile isPySpace).reverse.dropWhile isPySpace).reverse⟩

/-- Python `s.lstrip(c)`: drop every leading occurrence of the character `c`. -/
def pyLstrip (c : Char) (s : String) : String :=
  ⟨s.data.dropWhile (· == c)⟩

/-- Python `s.rstrip(c)`: drop every trailing occurrence of the character `c`. -/
def pyRstrip (c : Char) (s : String) : String :=
  ⟨(s.data.reverse.dropWhile (· == c)).reverse⟩

/-- Splitting helper: cut a character list at every character satisfying `p`,
keeping empty pieces (they are filtered away by `pySplit`). -/
def pySplitAux (p : Char → Bool) : List Char → List Char → List String
  | [], acc => [⟨acc.reverse⟩]
  | c :: rest, acc =>
      if p c then (⟨acc.reverse⟩ : String) :: pySplitAux p rest []
      else pySplitAux p rest (c :: acc)

/-- Python `s.split()` with no argument: split on whitespace runs, no empties. -/
def pySplit (s : String) : List String :=
  (pySplitAux isPySpace s.data []).filter (fun t => t ≠ "")

/-- Python `s.splitlines()`-style cut used to model `readlines` of a whole text. -/
def pyLines (s : String) : List String :=
  pySplitAux (fun c => c == '\n') s.data []

/-- Substring test on character lists, used for the Python `in` operator. -/
def charsContain (pat : List Char) : List Char → Bool
  | [] => pat.isEmpty
  | c :: rest => pat.isPrefixOf (c :: rest) || charsContain pat rest

/-- Python `pat in s` substring containment. -/
def pyContains (pat s : String) : Bool := charsContain pat.data s.data

/-- Python `s.startswith(pre)`. -/
def pyStartsWith (pre s : String) : Bool := pre.data.isPrefixOf s.data

/-- Python `s.split(':')[0]`: the text before the first colon. -/
def beforeColon (s : String) : String := ⟨s.data.takeWhile (fun c => c ≠ ':')⟩

/-- First character of a string is an ASCII digit (Python `s[0].isdigit()`). -/
def headIsDigit (s : String) : Bool :=
  match s.data with
  | [] => false
  | c :: _ => c.isDigit

/-! ## Data model: parsed comparisons and the block map -/

/-- The dictionary produced by `build_block_map`: label to instruction lines. -/
abbrev Blocks := List (String × List String)

/-- Python dict assignment `d[k] = v`: replace the binding if present, else append. -/
def dictInsert (k : String) (v : List String) : Blocks → Blocks
  | [] => [(k, v)]
  | (k1, v1) :: rest =>
      if k1 == k then (k, v) :: rest else (k1, v1) :: dictInsert k v rest

/-- Python `d.get(k, [])`: the value bound to the first matching key (keys
are unique in a Python dict), or the empty default. -/
def dictGet : Blocks → String → List String
  | [], _ => []
  | (k1, v1) :: rest, k => if k1 == k then v1 else dictGet rest k

/-- Result of `LLVMProtector.parse_icmp`. -/
structure ParsedIcmp where
  result : String
  ty : String
  op1 : String
  op2 : String
  full_line : String
deriving Repr, DecidableEq

/-- `LLVMProtector.parse_icmp`: recognize a comparison line and extract its
fields from fixed token positions. -/
def parse_icmp (line : String) : Option ParsedIcmp :=
  if pyContains "icmp" line then
    let parts := pySplit line
    if parts.length < 7 then none
    else some
      { result := parts.getD 0 ""
        ty := parts.getD 4 ""
        op1 := pyRstrip ',' (parts.getD 5 "")
        op2 := parts.getD 6 ""
        full_line := pyStrip line }
  else none

/-- The test in `build_block_map` that makes a line a label candidate:
stripped text is nonempty and starts with a digit or contains `safe_` or
`fault_` anywhere. -/
def labelTrigger (line : String) : Bool :=
  let s := pyStrip line
  !s.data.isEmpty && (headIsDigit s || pyContains "safe_" s || pyContains "fault_" s)

/-- The candidate line also contains a colon, so it actually starts a block. -/
def hasColon (line : String) : Bool := pyContains ":" (pyStrip line)

/-- A line that starts a new block in `build_block_map`. -/
def isLabelLine (line : String) : Bool := labelTrigger line && hasColon line

/-- The label extracted from a label line: stripped text before the first colon. -/
def labelOf (line : String) : String := beforeColon (pyStrip line)

/-- Loop body of `build_block_map`, carrying the dictionary built so far and
the currently open block (label and the instructions collected for it). -/
def bbmGo : List String → Blocks → Option (String × List String) → Blocks
  | [], blocks, none => blocks
  | [], blocks, some (k, ins) => dictInsert k ins blocks
  | line :: rest, blocks, cur =>
      if labelTrigger line then
        if hasColon line then
          let blocks1 := match cur with
            | none => blocks
            | some (k, ins) => dictInsert k ins blocks
          bbmGo rest blocks1 (some (labelOf line, []))
        else bbmGo rest blocks cur
      else
        match cur with
        | some (k, ins) => bbmGo rest blocks (some (k, ins ++ [line]))
        | none => bbmGo rest blocks none

/-- `LLVMProtector.build_block_map`: partition the lines into labelled blocks. -/
def build_block_map (lines : List String) : Blocks := bbmGo lines [] none

/-! ## Return-value resolver -/

/-- The constant checks performed on each line by `find_return_value`, in the
order the Python code performs them (substring containment). -/
def lineConst (l : String) : Option Nat :=
  if pyContains "ret i32 1" l then some 1
  else if pyContains "ret i32 0" l then some 0
  else if pyContains "store i32 1" l then some 1
  else if pyContains "store i32 0" l then some 0
  else none

/-- Recursive worker of `find_return_value`.  The Python function walks the
current block line by line and, on a `br label` line, recurses into every
`%`-token of that line, threading the mutable `visited` set through.  Here the
pending `%`-tokens of the current line are the `parts` argument and the
remaining lines of the current block are `lns`.  One unit of `fuel` is
consumed at every step so that the recursion is structural and computable by
the kernel.  Fuel exhaustion is unreachable from the wrapper
`find_return_value`: every step either processes one token of a `br label`
line, one line of a block, or closes one block, the `visited` set grows along
the execution order so each labelled block is entered at most once, and a
label missing from the map closes immediately, so the number of nested calls
is bounded by the total token count of the map, which the supplied fuel
strictly exceeds.  The model therefore agrees with the always-terminating
Python recursion on every input reachable through the wrapper. -/
def frvGo (blocks : Blocks) :
    Nat → List String → List String → List String → Option Nat × List String
  | 0, _, _, visited => (none, visited)
  | fuel + 1, parts, lns, visited =>
      match parts with
      | p :: ps =>
          if pyStartsWith "%" p then
            let nxt := pyRstrip ',' (pyLstrip '%' p)
            if visited.contains nxt then frvGo blocks fuel ps lns visited
            else
              match frvGo blocks fuel [] (dictGet blocks nxt) (nxt :: visited) with
              | (some v, vis) => (some v, vis)
              | (none, vis) => frvGo blocks fuel ps lns vis
          else frvGo blocks fuel ps lns visited
      | [] =>
          match lns with
          | l :: rest =>
              match lineConst l with
              | some v => (some v, visited)
              | none =>
                  if pyContains "br label" l then frvGo blocks fuel (pySplit l) rest visited
                  else frvGo blocks fuel [] rest visited
          | [] => (none, visited)

/-- Fuel cost ascribed to one block line: the line itself, its tokens, and
one unit of headroom. -/
def lineCost (l : String) : Nat := 2 + (pySplit l).length

/-- Fuel cost ascribed to one block: its closing step plus its lines. -/
def blockCost (ls : List String) : Nat := 1 + (ls.map lineCost).sum

/-- Fuel cost of the whole block map. -/
def blocksCost (blocks : Blocks) : Nat := (blocks.map (fun p => blockCost p.2)).sum

/-- `LLVMProtector.find_return_value`: resolve which constant is returned from
the block `label`, following unconditional branches, with the `visited` set
guarding against cycles.  Returns the resolved constant (or `none` for the
Python `None`) together with the final state of the `visited` set. -/
def find_return_value (label : String) (blocks : Blocks) (visited : List String) :
    Option Nat × List String :=
  if visited.contains label then (none, visited)
  else
    frvGo blocks (2 * blocksCost blocks + blockCost (dictGet blocks label) + 2)
      [] (dictGet blocks label) (label :: visited)

/-! ## Criticality scorer -/

/-- The branch-detection test of the scoring loop and of the injection loop:
the line contains `br i1` and the comparison result identifier as substrings. -/
def branchMatch (cmpResult line : String) : Bool :=
  pyContains "br i1" line && pyContains cmpResult line

/-- True-branch label extracted by `score_comparison` from a branch line. -/
def trueLabelOf (l : String) : String :=
  pyRstrip ',' (pyLstrip '%' ((pySplit l).getD 4 ""))

/-- False-branch label extracted by `score_comparison`, absent when the line
has at most seven tokens. -/
def falseLabelOf (l : String) : Option String :=
  if 6 < (pySplit l).length then some (pyRstrip ',' (pyLstrip '%' ((pySplit l).getD 6 ""))) else none

/-- Return value reachable from the true target of a branch line. -/
def trueRetOf (blocks : Blocks) (l : String) : Option Nat :=
  (find_return_value (trueLabelOf l) blocks []).1

/-- Return value reachable from the false target of a branch line; the Python
code skips the lookup when the label is missing or empty. -/
def falseRetOf (blocks : Blocks) (l : String) : Option Nat :=
  match falseLabelOf l with
  | some fl => if fl = "" then none else (find_return_value fl blocks []).1
  | none => none

/-- Scoring of the first matching branch line: 100 when both targets resolve
to different constants, 30 when at least one resolves, 0 otherwise.  `none`
models the `IndexError` the Python code raises on a branch line with fewer
than five tokens. -/
def evalBranchLine (blocks : Blocks) (l : String) : Option Nat :=
  if 4 < (pySplit l).length then
    some (if trueRetOf blocks l ≠ none ∧ falseRetOf blocks l ≠ none ∧
             trueRetOf blocks l ≠ falseRetOf blocks l then 100
          else if trueRetOf blocks l ≠ none ∨ falseRetOf blocks l ≠ none then 30 else 0)
  else none

/-- The bounded lookahead loop of `score_comparison`: `remaining` indices are
still to inspect starting at index `k`, and the loop stops at the first
matching branch line. -/
def scoreGo (cmpResult : String) (lines : List String) (blocks : Blocks) :
    Nat → Nat → Option Nat
  | 0, _ => some 0
  | remaining + 1, k =>
      let l := lines.getD k ""
      if branchMatch cmpResult l then evalBranchLine blocks l
      else scoreGo cmpResult lines blocks remaining (k + 1)

/-- `LLVMProtector.score_comparison`: look ahead at most four lines for the
branch consuming the comparison result and score it by the divergence of the
two branch targets. -/
def score_comparison (cmpResult : String) (lines : List String) (lineIdx : Nat) : Option Nat :=
  scoreGo cmpResult lines (build_block_map lines)
    (min (lineIdx + 5) lines.length - (lineIdx + 1)) (lineIdx + 1)

/-! ## Protection injector (`LLVMProtector.process_file`, ranked variant) -/

/-- A scored comparison record as accumulated by the scanning phase of
`process_file` (the Python dict extended with `score` and `line_num`). -/
structure CmpInfo where
  result : String
  ty : String
  op1 : String
  op2 : String
  full_line : String
  score : Nat
  line_num : Nat
deriving Repr, DecidableEq

/-- Scanning loop of `process_file`: walk the lines with their indices,
parse each comparison and score it, accumulating the list of all comparisons
and the list of comparisons whose score reaches the threshold.  `none` models
a crash of the scorer. -/
def scanGo (lines : List String) (threshold : Nat) :
    List String → Nat → List CmpInfo → List CmpInfo → Option (List CmpInfo × List CmpInfo)
  | [], _, all, prot => some (all, prot)
  | line :: rest, i, all, prot =>
      match parse_icmp line with
      | none => scanGo lines threshold rest (i + 1) all prot
      | some p =>
          match score_comparison p.result lines i with
          | none => none
          | some s =>
              let info : CmpInfo :=
                ⟨p.result, p.ty, p.op1, p.op2, p.full_line, s, i⟩
              scanGo lines threshold rest (i + 1) (all ++ [info])
                (if threshold ≤ s then prot ++ [info] else prot)

/-- The scanning phase of `process_file`: all comparisons found, and the
subset selected for protection (`score >= threshold`). -/
def scanCmps (lines : List String) (threshold : Nat) :
    Option (List CmpInfo × List CmpInfo) :=
  scanGo lines threshold lines 0 [] []

/-- Threshold-free projection of the scanning loop, used to relate scans at
different thresholds: it accumulates every comparison and no selection. -/
def scanAllAux (lines : List String) : List String → Nat → List CmpInfo → Option (List CmpInfo)
  | [], _, all => some all
  | line :: rest, i, all =>
      match parse_icmp line with
      | none => scanAllAux lines rest (i + 1) all
      | some p =>
          match score_comparison p.result lines i with
          | none => none
          | some s =>
              scanAllAux lines rest (i + 1)
                (all ++ [⟨p.result, p.ty, p.op1, p.op2, p.full_line, s, i⟩])

/-- Pair every line with the protected comparison whose recorded line number
matches its index, modelling the `protected_indices` membership test and the
`next(...)` lookup of the output loop. -/
def tagAux (prot : List CmpInfo) : List String → Nat → List (String × Option CmpInfo)
  | [], _ => []
  | l :: rest, i => (l, prot.find? (fun c => c.line_num == i)) :: tagAux prot rest (i + 1)

/-- Tagged lines for the output loop. -/
def tagLines (lines : List String) (prot : List CmpInfo) : List (String × Option CmpInfo) :=
  tagAux prot lines 0

/-- The abort declaration emitted after the target triple, one output entry. -/
def abortDecl : String := "\ndeclare void @abort() noreturn\n\n"

/-- The fresh duplicate register name for counter value `regc`. -/
def dupReg (regc : Nat) : String := "%dup_" ++ toString regc

/-- The fresh verification register name (the counter is incremented once
after the duplicate register is drawn). -/
def verifyReg (regc : Nat) : String := "%verify_" ++ toString (regc + 1)

/-- The emitted duplicate comparison line. -/
def dupLine (regc : Nat) (info : CmpInfo) : String :=
  "  " ++ (dupReg regc ++ (" = icmp eq " ++ (info.ty ++ (" " ++ (info.op1 ++ (", " ++ (info.op2 ++ "\n")))))))

/-- The emitted verification comparison line. -/
def verLine (regc : Nat) (info : CmpInfo) : String :=
  "  " ++ (verifyReg regc ++ (" = icmp eq i1 " ++ (info.result ++ (", " ++ (dupReg regc ++ "\n")))))

/-- The six lines emitted when the consuming branch of a protected comparison
is found: the branch on the verification register, the safe block
re-expressing the original branch, and the fault block. -/
def protLines (vreg res trueL falseL : String) (blkc : Nat) : List String :=
  [ "  br i1 " ++ (vreg ++ (", label %safe_" ++ (toString blkc ++ (", label %fault_" ++ (toString blkc ++ "\n\n")))))
  , "safe_" ++ (toString blkc ++ ":\n")
  , "  br i1 " ++ (res ++ (", label " ++ (trueL ++ (", label " ++ (falseL ++ "\n\n")))))
  , "fault_" ++ (toString blkc ++ ":\n")
  , "  call void @abort()\n"
  , "  unreachable\n\n" ]

/-- Output loop of `process_file`.  The mode is `none` in the outer loop and
`some (result, verifyRegister)` inside the inner loop that searches for the
branch consuming a protected comparison.  `added` is the `added_abort` flag,
`regc` and `blkc` the two fresh-name counters.  `none` models the
`IndexError` raised on a consuming branch line with at most seven tokens. -/
def injGo : List (String × Option CmpInfo) → Option (String × String) → Bool → Nat → Nat →
    Option (List String)
  | [], _, _, _, _ => some []
  | (line, _) :: rest, some (res, vreg), added, regc, blkc =>
      if branchMatch res line then
        let parts := pySplit line
        if 6 < parts.length then
          match injGo rest none added regc (blkc + 1) with
          | none => none
          | some out =>
              some (protLines vreg res (pyRstrip ',' (parts.getD 4 "")) (parts.getD 6 "") blkc ++ out)
        else none
      else
        match injGo rest (some (res, vreg)) added regc blkc with
        | none => none
        | some out => some (line :: out)
  | (line, tag) :: rest, none, added, regc, blkc =>
      if pyContains "target triple" line && !added then
        match injGo rest none true regc blkc with
        | none => none
        | some out => some (line :: abortDecl :: out)
      else
        match tag with
        | some info =>
            match injGo rest (some (info.result, verifyReg regc)) added (regc + 2) blkc with
            | none => none
            | some out => some (line :: dupLine regc info :: verLine regc info :: out)
        | none =>
            match injGo rest none added regc blkc with
            | none => none
            | some out => some (line :: out)

/-- `LLVMProtector.process_file` of the ranked protector, from the list of
input lines to the list of output entries (file reading, writing and the
console summary are outside the model).  The counters start at 1000 and 100
as in `LLVMProtector.__init__`. -/
def process_file (lines : List String) (threshold : Nat) : Option (List String) :=
  match scanCmps lines threshold with
  | none => none
  | some (_, prot) => injGo (tagLines lines prot) none false 1000 100

/-! ## Verification pipeline (`verify_protection.py`) -/

/-- Count non-overlapping occurrences of a literal pattern, scanning left to
right, as `re.findall` does for a pattern without metacharacters. -/
def countOccAux (pat : List Char) : List Char → Nat
  | [] => 0
  | c :: rest =>
      (if pat.isPrefixOf (c :: rest) then 1 else 0) + countOccAux pat rest

/-- `ProtectionVerifier.count_pattern` for the literal `call void @abort`. -/
def countOccStr (pat s : String) : Nat := countOccAux pat.data s.data

/-- Occurrences of an identifier pattern: the literal stem followed by at
least one digit, as `re.findall` counts for a stem-plus-digits pattern (such
matches can never overlap because the stem starts with `%`). -/
def countIdAux (stem : List Char) : List Char → Nat
  | [] => 0
  | c :: rest =>
      (if stem.isPrefixOf (c :: rest) &&
          (match (c :: rest).drop stem.length with
           | d :: _ => d.isDigit
           | [] => false) then 1 else 0) + countIdAux stem rest

/-- Count of duplicate-register identifiers (pattern stem `%dup_`). -/
def countDupIds (s : String) : Nat := countIdAux "%dup_".data s.data

/-- Count of verification-register identifiers (pattern stem `%verify_`). -/
def countVerifyIds (s : String) : Nat := countIdAux "%verify_".data s.data

/-- `ProtectionVerifier.count_lines`: non-empty, non-comment lines. -/
def count_lines (content : String) : Nat :=
  ((pyLines content).filter
    (fun l => pyStrip l ≠ "" ∧ ¬ pyStartsWith ";" (pyStrip l))).length

/-- The `results` dictionary of `ProtectionVerifier`. -/
structure VerifyResults where
  original_size : Nat
  protected_size : Nat
  optimized_size : Nat
  abort_calls_protected : Nat
  abort_calls_optimized : Nat
  duplicate_cmp_protected : Nat
  duplicate_cmp_optimized : Nat
  verification_passed : Bool
deriving Repr, DecidableEq

/-- The initial `results` dictionary. -/
def initResults : VerifyResults := ⟨0, 0, 0, 0, 0, 0, 0, false⟩

/-- `ProtectionVerifier.verify_protected_ir`: the three artifact gates on the
protected unit, recording counts as they are computed. -/
def verify_protected_ir (prot : String) (r : VerifyResults) : Bool × VerifyResults :=
  let ac := countOccStr "call void @abort" prot
  let r1 := { r with abort_calls_protected := ac }
  if ac = 0 then (false, r1)
  else
    let dc := countDupIds prot
    let r2 := { r1 with duplicate_cmp_protected := dc }
    if dc = 0 then (false, r2)
    else
      let vc := countVerifyIds prot
      if vc = 0 then (false, r2)
      else (true, { r2 with protected_size := count_lines prot })

/-- `ProtectionVerifier.verify_optimized_ir`: abort survival is a hard gate,
duplicate survival only recorded. -/
def verify_optimized_ir (optIR : String) (r : VerifyResults) : Bool × VerifyResults :=
  let ac := countOccStr "call void @abort" optIR
  let r1 := { r with abort_calls_optimized := ac }
  if ac = 0 then (false, r1)
  else
    let dc := countDupIds optIR
    let r2 := { r1 with duplicate_cmp_optimized := dc }
    (true, { r2 with optimized_size := count_lines optIR })

/-- `ProtectionVerifier.print_summary`: records the original size and sets
the overall flag; the percentage prints divide by the original size, so a
unit with zero countable lines crashes the pipeline (modelled by `none`). -/
def print_summary (original : String) (r : VerifyResults) : Option VerifyResults :=
  let osize := count_lines original
  let r1 := { r with original_size := osize }
  if osize = 0 then none
  else some { r1 with verification_passed := 0 < r1.abort_calls_optimized }

/-- `ProtectionVerifier.run_verification` with the external optimizer
abstracted as its outcome: `none` for a failed invocation, `some text` for
the optimized unit it produced.  The result pairs the returned truth value
with the final `results` dictionary; `none` models a crash. -/
def run_verification (original protectedIR : String) (optOut : Option String) :
    Option (Bool × VerifyResults) :=
  match verify_protected_ir protectedIR initResults with
  | (false, r) => some (false, r)
  | (true, r) =>
      match optOut with
      | none => some (false, r)
      | some optIR =>
          match verify_optimized_ir optIR r with
          | (false, r1) => some (false, r1)
          | (true, r1) =>
              match print_summary original r1 with
              | none => none
              | some r2 => some (r2.verification_passed, r2)

/-! ## Concrete units used by the example-based theorems -/

/-- A decision-gate unit: one comparison whose branch targets return 1 and 0. -/
def linesGate : List String :=
  ["%c = icmp eq i32 %x, %y\n", "br i1 %c, label %10, label %20\n",
   "10:\n", "  ret i32 1\n", "20:\n", "  ret i32 0\n"]

/-- Output of the ranked protector on `linesGate` at threshold 50. -/
def outGate : List String :=
  ["%c = icmp eq i32 %x, %y\n", "  %dup_1000 = icmp eq i32 %x, %y\n",
   "  %verify_1001 = icmp eq i1 %c, %dup_1000\n",
   "  br i1 %verify_1001, label %safe_100, label %fault_100\n\n", "safe_100:\n",
   "  br i1 %c, label %10, label %20\n\n", "fault_100:\n", "  call void @abort()\n",
   "  unreachable\n\n", "10:\n", "  ret i32 1\n", "20:\n", "  ret i32 0\n"]

/-- A unit whose comparison has both branch targets returning the constant 0. -/
def linesBothZero : List String :=
  ["%c = icmp eq i32 %x, %y\n", "br i1 %c, label %10, label %20\n",
   "10:\n", "  ret i32 0\n", "20:\n", "  ret i32 0\n"]

/-- Two comparisons whose source lines both precede the branch consuming the
first one: the second lies inside the inner copy loop of the injector. -/
def linesOverlap : List String :=
  ["%c1 = icmp eq i32 %x, %y\n", "%c2 = icmp eq i32 %x, %y\n",
   "br i1 %c1, label %10, label %20\n", "br i1 %c2, label %10, label %20\n",
   "10:\n", "  ret i32 1\n", "20:\n", "  ret i32 0\n"]

/-- Output of the ranked protector on `linesOverlap` at threshold 50. -/
def outOverlap : List String :=
  ["%c1 = icmp eq i32 %x, %y\n", "  %dup_1000 = icmp eq i32 %x, %y\n",
   "  %verify_1001 = icmp eq i1 %c1, %dup_1000\n", "%c2 = icmp eq i32 %x, %y\n",
   "  br i1 %verify_1001, label %safe_100, label %fault_100\n\n", "safe_100:\n",
   "  br i1 %c1, label %10, label %20\n\n", "fault_100:\n", "  call void @abort()\n",
   "  unreachable\n\n", "br i1 %c2, label %10, label %20\n", "10:\n", "  ret i32 1\n",
   "20:\n", "  ret i32 0\n"]

/-- A unit where `%a` scores 0 (its result is never consumed by a branch) and
`%c` scores 100; protecting `%a` at threshold 0 makes the inner copy loop of
the injector swallow the whole rest of the unit, so `%c` is never protected. -/
def linesPassive : List String :=
  ["%a = icmp eq i32 %x, %y\n", "%c = icmp eq i32 %x, %y\n",
   "br i1 %c, label %10, label %20\n",
   "10:\n", "  ret i32 1\n", "20:\n", "  ret i32 0\n"]

/-- A unit whose consuming branch line has only three tokens, on which the
Python scorer raises `IndexError` at `parts[4]`. -/
def linesShortBranch : List String :=
  ["%c = icmp eq i32 %x, %y\n", "br i1 %c\n"]

/-- The `%a` comparison record of `linesPassive` as built by the scanner. -/
def cmpPassiveA : CmpInfo :=
  ⟨"%a", "i32", "%x", "%y", "%a = icmp eq i32 %x, %y", 0, 0⟩

/-- The `%c` comparison record of `linesPassive` as built by the scanner. -/
def cmpPassiveC : CmpInfo :=
  ⟨"%c", "i32", "%x", "%y", "%c = icmp eq i32 %x, %y", 100, 1⟩

/-- A protected unit carrying all three protection artifacts. -/
def protArtifacts : String :=
  "  call void @abort()\n  %dup_1 = icmp eq i32 %x, %y\n  %verify_2 = icmp eq i1 %c, %dup_1\n"

/-- An optimized unit in which an abort call survives. -/
def optWithAbort : String := "  call void @abort()\n"

/-- An original unit with one countable line. -/
def origOneLine : String := "define i32 @f()\n"

/-! ## Claim theorems: concrete evaluations -/

/-- C10.  The resolver matches return and store lines by substring
containment, so a block whose only terminator is `ret i32 10` resolves to
the constant 1 (the pattern `ret i32 1` occurs inside `ret i32 10`) instead
of Unknown. -/
theorem find_return_value_substring_ten :
    (find_return_value "10" (build_block_map ["10:\n", "  ret i32 10\n"]) []).1 = some 1
  ∧ lineConst "  ret i32 10\n" = some 1 := by decide

/-- Counterexample to C1 as stated: on `linesBothZero` the consuming branch
is found in the window and both targets resolve to the same constant 0, yet
`score_comparison` returns 30, not 0 (the `elif` arm fires because at least
one side resolved). -/
theorem score_both_same_cex :
    trueRetOf (build_block_map linesBothZero) (linesBothZero.getD 1 "") = some 0
  ∧ falseRetOf (build_block_map linesBothZero) (linesBothZero.getD 1 "") = some 0
  ∧ branchMatch "%c" (linesBothZero.getD 1 "") = true
  ∧ score_comparison "%c" linesBothZero 0 = some 30 := by decide

/-- Counterexample to C3 as stated: `linesGate` has no target/platform
declaration, one comparison is protected and an abort call is emitted (the
declaration is needed), yet the abort-primitive declaration never appears in
the output. -/
theorem abort_decl_missing_cex :
    process_file linesGate 50 = some outGate
  ∧ outGate.count abortDecl = 0
  ∧ outGate.count "  call void @abort()\n" = 1
  ∧ (∀ l ∈ linesGate, pyContains "target triple" l = false) := by decide

/-- C7 evaluated at the failing input: the second line of `linesShortBranch`
is the conditional branch consuming `%c` but has only three tokens, so the
scorer of the protection stage crashes (Python `IndexError` at `parts[4]`,
modelled by `none`) instead of passing the malformed line through. -/
theorem process_file_short_branch_crash :
    process_file linesShortBranch 50 = none
  ∧ branchMatch "%c" (linesShortBranch.getD 1 "") = true
  ∧ (pySplit (linesShortBranch.getD 1 "")).length = 3 := by decide

/-- Counterexample to C8 as stated: on `linesPassive` with thresholds
0 and 50 (0 is not larger than 50), the selected set at threshold 0 is a
strict superset, but the output at threshold 0 has 9 lines while the output
at threshold 50 has 14 lines: protecting the passive `%a` comparison makes
the inner copy loop swallow the protection site of `%c`. -/
theorem threshold_output_length_cex :
    (process_file linesPassive 0).map List.length = some 9
  ∧ (process_file linesPassive 50).map List.length = some 14
  ∧ (0 : Nat) ≤ 50 := by decide

/-- C9.  On `linesOverlap` both comparisons are selected as eligible, but the
second comparison line lies between the first comparison and its consuming
branch, so the injector copies it through unchanged inside the inner loop:
the output contains exactly one duplicate line, one verification line and
one safe/fault pair, and entry 3 of the output is the second comparison line
verbatim. -/
theorem overlapping_protection_passthrough :
    (scanCmps linesOverlap 50).map (fun x => x.2.map CmpInfo.line_num) = some [0, 1]
  ∧ process_file linesOverlap 50 = some outOverlap
  ∧ outOverlap.getD 3 "" = linesOverlap.getD 1 ""
  ∧ (outOverlap.filter (fun l => pyStartsWith "  %dup_" l)).length = 1
  ∧ (outOverlap.filter (fun l => pyStartsWith "safe_" l)).length = 1
  ∧ (outOverlap.filter (fun l => pyStartsWith "fault_" l)).length = 1 := by decide

/-- Counterexample to C5 as stated: with an original unit that has zero
countable lines, all four artifact conditions hold but the pipeline crashes
in the summary (Python division by zero, modelled by `none`) instead of
passing. -/
theorem run_verification_zero_original_cex :
    run_verification "" protArtifacts (some optWithAbort) = none
  ∧ 0 < countOccStr "call void @abort" protArtifacts
  ∧ 0 < countDupIds protArtifacts
  ∧ 0 < countVerifyIds protArtifacts
  ∧ 0 < countOccStr "call void @abort" optWithAbort := by decide

/-! ## Scorer lemmas and the scoring claims -/

/-- The lookahead loop evaluates the first matching branch line it reaches. -/
lemma scoreGo_first (cmpResult : String) (lines : List String) (blocks : Blocks) :
    ∀ (r k j : Nat), k ≤ j → j < k + r →
      (∀ m, k ≤ m → m < j → branchMatch cmpResult (lines.getD m "") = false) →
      branchMatch cmpResult (lines.getD j "") = true →
      scoreGo cmpResult lines blocks r k = evalBranchLine blocks (lines.getD j "")
  | 0, _, j, hkj, hjr, _, _ => absurd hjr (by omega)
  | r + 1, k, j, hkj, hjr, hfirst, hmatch => by
      rcases Nat.eq_or_lt_of_le hkj with heq | hlt
      · subst heq
        show (if branchMatch cmpResult (lines.getD k "") = true
              then evalBranchLine blocks (lines.getD k "")
              else scoreGo cmpResult lines blocks r (k + 1))
            = evalBranchLine blocks (lines.getD k "")
        rw [if_pos hmatch]
      · have hk : branchMatch cmpResult (lines.getD k "") = false := hfirst k le_rfl hlt
        show (if branchMatch cmpResult (lines.getD k "") = true
              then evalBranchLine blocks (lines.getD k "")
              else scoreGo cmpResult lines blocks r (k + 1))
            = evalBranchLine blocks (lines.getD j "")
        rw [if_neg (by rw [hk]; exact Bool.false_ne_true)]
        exact scoreGo_first cmpResult lines blocks r (k + 1) j hlt (by omega)
          (fun m h1 h2 => hfirst m (by omega) h2) hmatch

/-- C4.  When the first branch line in the lookahead window that consumes the
comparison result has its true target resolving to constant 1 and its false
target to constant 0 (or vice versa), `score_comparison` returns 100. -/
theorem score_decision_gate (cmpResult : String) (lines : List String) (i j : Nat)
    (h1 : i + 1 ≤ j) (h2 : j < min (i + 5) lines.length)
    (hfirst : ∀ m, i + 1 ≤ m → m < j → branchMatch cmpResult (lines.getD m "") = false)
    (hmatch : branchMatch cmpResult (lines.getD j "") = true)
    (hlen : 4 < (pySplit (lines.getD j "")).length)
    (hgate : (trueRetOf (build_block_map lines) (lines.getD j "") = some 1
              ∧ falseRetOf (build_block_map lines) (lines.getD j "") = some 0)
           ∨ (trueRetOf (build_block_map lines) (lines.getD j "") = some 0
              ∧ falseRetOf (build_block_map lines) (lines.getD j "") = some 1)) :
    score_comparison cmpResult lines i = some 100 := by
  unfold score_comparison
  rw [scoreGo_first cmpResult lines (build_block_map lines)
      (min (i + 5) lines.length - (i + 1)) (i + 1) j h1 (by omega) hfirst hmatch]
  unfold evalBranchLine
  rw [if_pos hlen]
  rcases hgate with ⟨ht, hf⟩ | ⟨ht, hf⟩ <;> rw [ht, hf] <;> simp

/-- Witness for C4 at the concrete decision-gate unit. -/
theorem score_decision_gate_witness : score_comparison "%c" linesGate 0 = some 100 :=
  score_decision_gate "%c" linesGate 0 1 (by decide) (by decide)
    (fun _ hm1 hm2 => by omega) (by decide) (by decide) (Or.inl ⟨by decide, by decide⟩)

/-- Amended C1.  When the first branch line in the lookahead window that
consumes the comparison result has both targets resolving to the same known
constant, `score_comparison` returns 30 (the partial-signal score), not 0:
the code only asks whether at least one side resolved when the two sides are
not distinct constants. -/
theorem score_both_same_amended (cmpResult : String) (lines : List String) (i j c : Nat)
    (h1 : i + 1 ≤ j) (h2 : j < min (i + 5) lines.length)
    (hfirst : ∀ m, i + 1 ≤ m → m < j → branchMatch cmpResult (lines.getD m "") = false)
    (hmatch : branchMatch cmpResult (lines.getD j "") = true)
    (hlen : 4 < (pySplit (lines.getD j "")).length)
    (htr : trueRetOf (build_block_map lines) (lines.getD j "") = some c)
    (hfr : falseRetOf (build_block_map lines) (lines.getD j "") = some c) :
    score_comparison cmpResult lines i = some 30 := by
  unfold score_comparison
  rw [scoreGo_first cmpResult lines (build_block_map lines)
      (min (i + 5) lines.length - (i + 1)) (i + 1) j h1 (by omega) hfirst hmatch]
  unfold evalBranchLine
  rw [if_pos hlen, htr, hfr]
  simp

/-- Witness for the amended C1 at the concrete both-targets-zero unit. -/
theorem score_both_same_amended_witness : score_comparison "%c" linesBothZero 0 = some 30 :=
  score_both_same_amended "%c" linesBothZero 0 1 0 (by decide) (by decide)
    (fun _ hm1 hm2 => by omega) (by decide) (by decide) (by decide) (by decide)

/-! ## Resolver lemmas and the cycle-safety claim -/

/-- Every line stored in the block map satisfies the no-constant hypothesis. -/
lemma dictGet_no_const : ∀ (blocks : Blocks),
    (∀ p ∈ blocks, ∀ l ∈ p.2, lineConst l = none) → ∀ (k : String),
    ∀ l ∈ dictGet blocks k, lineConst l = none := by
  intro blocks
  induction blocks with
  | nil =>
      intro _ k l hl
      simp [dictGet] at hl
  | cons p rest ih =>
      intro hb k l hl
      obtain ⟨k1, v1⟩ := p
      by_cases h : (k1 == k) = true
      · rw [show dictGet ((k1, v1) :: rest) k = v1 by simp [dictGet, h]] at hl
        exact hb (k1, v1) (List.mem_cons_self _ _) l hl
      · rw [show dictGet ((k1, v1) :: rest) k = dictGet rest k by simp [dictGet, h]] at hl
        exact ih (fun q hq => hb q (List.mem_cons_of_mem _ hq)) k l hl

/-- If no line of the map matches a constant pattern, the resolver worker
yields Unknown at every fuel, from every position. -/
lemma frvGo_no_const (blocks : Blocks)
    (hb : ∀ p ∈ blocks, ∀ l ∈ p.2, lineConst l = none) :
    ∀ (fuel : Nat) (parts lns visited : List String),
      (∀ l ∈ lns, lineConst l = none) →
      (frvGo blocks fuel parts lns visited).1 = none := by
  intro fuel
  induction fuel with
  | zero =>
      intro parts lns visited _
      rfl
  | succ fuel ih =>
      intro parts lns visited hl
      cases parts with
      | cons p ps =>
          by_cases hp : pyStartsWith "%" p
          · by_cases hv : List.contains visited (pyRstrip ',' (pyLstrip '%' p))
            · simp only [frvGo, hp, hv, if_true]
              exact ih ps lns visited hl
            · simp only [frvGo, hp, hv, if_true, Bool.false_eq_true, if_false]
              rcases hdes : frvGo blocks fuel []
                  (dictGet blocks (pyRstrip ',' (pyLstrip '%' p)))
                  ((pyRstrip ',' (pyLstrip '%' p)) :: visited) with ⟨o, vis⟩
              have ho : o = none := by
                have h2 := ih [] (dictGet blocks (pyRstrip ',' (pyLstrip '%' p)))
                  ((pyRstrip ',' (pyLstrip '%' p)) :: visited)
                  (dictGet_no_const blocks hb _)
                rw [hdes] at h2
                exact h2
              subst ho
              exact ih ps lns vis hl
          · simp only [frvGo, hp, Bool.false_eq_true, if_false]
            exact ih ps lns visited hl
      | nil =>
          cases lns with
          | nil => rfl
          | cons l rest =>
              have hc : lineConst l = none := hl l (List.mem_cons_self l rest)
              have hrest : ∀ x ∈ rest, lineConst x = none :=
                fun x hx => hl x (List.mem_cons_of_mem l hx)
              by_cases hbr : pyContains "br label" l
              · simp only [frvGo, hc, hbr, if_true]
                exact ih (pySplit l) rest visited hrest
              · simp only [frvGo, hc, hbr, Bool.false_eq_true, if_false]
                exact ih [] rest visited hrest

/-- C6.  The return-value resolver is total (it is a function in this model,
with fuel exhaustion unreachable as argued at `frvGo`), a label already in
the visited set returns Unknown immediately on re-entry, and on any block
graph with no return or store of a constant anywhere, in particular on a
pure branch cycle, it yields Unknown. -/
theorem find_return_value_cycle_safe :
    (∀ (blocks : Blocks) (label : String) (visited : List String),
        visited.contains label = true → find_return_value label blocks visited = (none, visited))
  ∧ (∀ (blocks : Blocks) (label : String) (visited : List String),
        (∀ p ∈ blocks, ∀ l ∈ p.2, lineConst l = none) →
        (find_return_value label blocks visited).1 = none) := by
  constructor
  · intro blocks label visited h
    unfold find_return_value
    rw [if_pos h]
  · intro blocks label visited hb
    unfold find_return_value
    split
    · rfl
    · exact frvGo_no_const blocks hb _ [] (dictGet blocks label) (label :: visited)
        (dictGet_no_const blocks hb label)

/-- Witness for C6 on a two-block branch cycle. -/
theorem find_return_value_cycle_safe_witness :
    find_return_value "a" [("a", ["  br label %b\n"]), ("b", ["  br label %a\n"])] ["a"]
      = (none, ["a"])
  ∧ (find_return_value "a" [("a", ["  br label %b\n"]), ("b", ["  br label %a\n"])] []).1
      = none :=
  ⟨find_return_value_cycle_safe.1 _ "a" ["a"] (by decide),
   find_return_value_cycle_safe.2 _ "a" [] (by decide)⟩

/-! ## Threshold monotonicity of the scanning phase -/

/-- One scanning pass at threshold `t` is the threshold-free pass followed by
filtering on `score >= t`: selection is exactly the score test. -/
lemma scanGo_eq_filter (lines : List String) (t : Nat) :
    ∀ (rem : List String) (i : Nat) (all : List CmpInfo),
      scanGo lines t rem i all (all.filter (fun c => decide (t ≤ c.score)))
        = (scanAllAux lines rem i all).map
            (fun a => (a, a.filter (fun c => decide (t ≤ c.score)))) := by
  intro rem
  induction rem with
  | nil => intro i all; rfl
  | cons line rest ih =>
      intro i all
      cases hp : parse_icmp line with
      | none =>
          simp only [scanGo, scanAllAux, hp]
          exact ih (i + 1) all
      | some p =>
          cases hs : score_comparison p.result lines i with
          | none => simp only [scanGo, scanAllAux, hp, hs]; rfl
          | some s =>
              simp only [scanGo, scanAllAux, hp, hs]
              by_cases hts : t ≤ s
              · rw [if_pos hts]
                have heq :
                    all.filter (fun c => decide (t ≤ c.score))
                      ++ [(⟨p.result, p.ty, p.op1, p.op2, p.full_line, s, i⟩ : CmpInfo)]
                    = (all ++ [(⟨p.result, p.ty, p.op1, p.op2, p.full_line, s, i⟩ : CmpInfo)]).filter
                        (fun c => decide (t ≤ c.score)) := by
                  simp [List.filter_append, hts]
                rw [heq]
                exact ih (i + 1) _
              · rw [if_neg hts]
                have heq :
                    all.filter (fun c => decide (t ≤ c.score))
                    = (all ++ [(⟨p.result, p.ty, p.op1, p.op2, p.full_line, s, i⟩ : CmpInfo)]).filter
                        (fun c => decide (t ≤ c.score)) := by
                  simp [List.filter_append, hts]
                rw [heq]
                exact ih (i + 1) _

/-- The scanning phase at threshold `t` in closed form. -/
lemma scanCmps_eq (lines : List String) (t : Nat) :
    scanCmps lines t
      = (scanAllAux lines lines 0 []).map
          (fun a => (a, a.filter (fun c => decide (t ≤ c.score)))) := by
  have h := scanGo_eq_filter lines t lines 0 []
  simpa [scanCmps] using h

/-- Filtering with a weaker test yields a superlist. -/
lemma filter_sublist_of_imp {α : Type} (p q : α → Bool)
    (h : ∀ a, q a = true → p a = true) :
    ∀ l : List α, (l.filter q).Sublist (l.filter p) := by
  intro l
  induction l with
  | nil => simp
  | cons a l ih =>
      by_cases hq : q a
      · have hpa := h a hq
        simp only [List.filter_cons, hq, hpa, if_true]
        exact ih.cons₂ a
      · simp only [List.filter_cons, hq, Bool.false_eq_true, if_false]
        cases hpa : p a
        · simp only [Bool.false_eq_true, if_false]
          exact ih
        · simp only [if_true]
          exact ih.cons a

/-- Amended C8.  For a fixed input unit the threshold-free comparison list is
the same at every threshold, the selected set is exactly the comparisons with
score at least the threshold, and lowering the threshold from `t2` to `t1`
selects a superset (the selected list at `t2` is a sublist of the one at
`t1`).  The output-size half of the original claim is refuted by
`threshold_output_length_cex`: because an extra selected comparison can
passively swallow the protection site of a later one, the output at the lower
threshold can be strictly shorter. -/
theorem threshold_selection_monotone (lines : List String) (t1 t2 : Nat) (h12 : t1 ≤ t2)
    (all1 p1 all2 p2 : List CmpInfo)
    (h1 : scanCmps lines t1 = some (all1, p1))
    (h2 : scanCmps lines t2 = some (all2, p2)) :
    all1 = all2
  ∧ p1 = all1.filter (fun c => decide (t1 ≤ c.score))
  ∧ p2 = all1.filter (fun c => decide (t2 ≤ c.score))
  ∧ p2.Sublist p1 := by
  rw [scanCmps_eq lines t1] at h1
  rw [scanCmps_eq lines t2] at h2
  rcases ha : scanAllAux lines lines 0 [] with _ | a
  · rw [ha] at h1
    simp at h1
  · rw [ha] at h1 h2
    simp only [Option.map_some'] at h1 h2
    have e1 := Option.some.inj h1
    have e2 := Option.some.inj h2
    have ha1 : a = all1 := congrArg Prod.fst e1
    have hp1 : a.filter (fun c => decide (t1 ≤ c.score)) = p1 := congrArg Prod.snd e1
    have ha2 : a = all2 := congrArg Prod.fst e2
    have hp2 : a.filter (fun c => decide (t2 ≤ c.score)) = p2 := congrArg Prod.snd e2
    subst ha1
    refine ⟨ha2, hp1.symm, hp2.symm, ?_⟩
    rw [← hp1, ← hp2]
    refine filter_sublist_of_imp _ _ (fun c hc => ?_) a
    simp only [decide_eq_true_eq] at hc ⊢
    omega

/-- Witness for the amended C8 on `linesPassive` with thresholds 0 and 50. -/
theorem threshold_selection_monotone_witness :
    ([cmpPassiveA, cmpPassiveC] : List CmpInfo) = [cmpPassiveA, cmpPassiveC]
  ∧ [cmpPassiveA, cmpPassiveC]
      = [cmpPassiveA, cmpPassiveC].filter (fun c => decide (0 ≤ c.score))
  ∧ [cmpPassiveC] = [cmpPassiveA, cmpPassiveC].filter (fun c => decide (50 ≤ c.score))
  ∧ ([cmpPassiveC] : List CmpInfo).Sublist [cmpPassiveA, cmpPassiveC] :=
  threshold_selection_monotone linesPassive 0 50 (by omega)
    [cmpPassiveA, cmpPassiveC] [cmpPassiveA, cmpPassiveC]
    [cmpPassiveA, cmpPassiveC] [cmpPassiveC] (by decide) (by decide)

/-! ## Block map lemmas and the label-recognition claim -/

/-- Looking up the key just inserted returns the inserted value. -/
lemma dictGet_insert_self (k : String) (v : List String) :
    ∀ d : Blocks, dictGet (dictInsert k v d) k = v := by
  intro d
  induction d with
  | nil => simp [dictInsert, dictGet]
  | cons p rest ih =>
      obtain ⟨k1, v1⟩ := p
      by_cases h : (k1 == k) = true
      · simp [dictInsert, h, dictGet]
      · simp only [dictInsert, h, Bool.false_eq_true, if_false]
        simpa [dictGet, h] using ih

/-- Inserting a different key leaves a lookup unchanged. -/
lemma dictGet_insert_ne (kk k : String) (v : List String) (h : kk ≠ k) :
    ∀ d : Blocks, dictGet (dictInsert kk v d) k = dictGet d k := by
  intro d
  have hb : (kk == k) = false := by simpa using h
  induction d with
  | nil => simp [dictInsert, dictGet, hb]
  | cons p rest ih =>
      obtain ⟨k1, v1⟩ := p
      by_cases h1 : (k1 == kk) = true
      · have hk1 : k1 = kk := by simpa using h1
        subst hk1
        simp [dictInsert, dictGet, hb]
      · simp only [dictInsert, h1, Bool.false_eq_true, if_false]
        by_cases h2 : (k1 == k) = true
        · simp [dictGet, h2]
        · simpa [dictGet, h2] using ih

/-- With no open block, lines that are not label lines are skipped. -/
lemma bbm_skip (rest : List String) (blocks : Blocks) :
    ∀ pre : List String, (∀ l ∈ pre, isLabelLine l = false) →
      bbmGo (pre ++ rest) blocks none = bbmGo rest blocks none := by
  intro pre
  induction pre with
  | nil => intro _; rfl
  | cons l pre1 ih =>
      intro hpre
      have hl : isLabelLine l = false := hpre l (List.mem_cons_self _ _)
      have hrest : ∀ x ∈ pre1, isLabelLine x = false :=
        fun x hx => hpre x (List.mem_cons_of_mem _ hx)
      by_cases ht : labelTrigger l
      · have hc : hasColon l = false := by
          cases hcq : hasColon l
          · rfl
          · simp [isLabelLine, ht, hcq] at hl
        show bbmGo (l :: (pre1 ++ rest)) blocks none = bbmGo rest blocks none
        simp only [bbmGo, ht, hc, Bool.false_eq_true, if_false, if_true]
        exact ih hrest
      · show bbmGo (l :: (pre1 ++ rest)) blocks none = bbmGo rest blocks none
        simp only [bbmGo, ht, Bool.false_eq_true, if_false]
        exact ih hrest

/-- With a block open, non-label lines are either appended to it (when they
fail the label-candidate test) or dropped (candidates without a colon). -/
lemma bbm_body (rest : List String) (blocks : Blocks) (k : String) :
    ∀ (body : List String) (ins : List String),
      (∀ l ∈ body, isLabelLine l = false) →
      bbmGo (body ++ rest) blocks (some (k, ins))
        = bbmGo rest blocks (some (k, ins ++ body.filter (fun l => !labelTrigger l))) := by
  intro body
  induction body with
  | nil => intro ins _; simp
  | cons l body1 ih =>
      intro ins hbody
      have hl : isLabelLine l = false := hbody l (List.mem_cons_self _ _)
      have hrest : ∀ x ∈ body1, isLabelLine x = false :=
        fun x hx => hbody x (List.mem_cons_of_mem _ hx)
      by_cases ht : labelTrigger l
      · have hc : hasColon l = false := by
          cases hcq : hasColon l
          · rfl
          · simp [isLabelLine, ht, hcq] at hl
        show bbmGo (l :: (body1 ++ rest)) blocks (some (k, ins)) = _
        simp only [bbmGo, ht, hc, Bool.false_eq_true, if_false, if_true]
        rw [ih ins hrest]
        simp [List.filter_cons, ht]
      · show bbmGo (l :: (body1 ++ rest)) blocks (some (k, ins)) = _
        simp only [bbmGo, ht, Bool.false_eq_true, if_false]
        rw [ih (ins ++ [l]) hrest]
        simp [List.filter_cons, ht, List.append_assoc]

/-- Processing further lines never changes the binding of a key that is not
the open block's key and not the label of any later label line. -/
lemma bbm_preserve (k : String) :
    ∀ (rest : List String) (blocks : Blocks) (cur : Option (String × List String)),
      (∀ k1 ins, cur = some (k1, ins) → k1 ≠ k) →
      (∀ l ∈ rest, isLabelLine l = true → labelOf l ≠ k) →
      dictGet (bbmGo rest blocks cur) k = dictGet blocks k := by
  intro rest
  induction rest with
  | nil =>
      intro blocks cur hcur _
      cases cur with
      | none => rfl
      | some p =>
          obtain ⟨k1, ins⟩ := p
          exact dictGet_insert_ne k1 k ins (hcur k1 ins rfl) blocks
  | cons l rest1 ih =>
      intro blocks cur hcur hrest
      have hrest1 : ∀ x ∈ rest1, isLabelLine x = true → labelOf x ≠ k :=
        fun x hx => hrest x (List.mem_cons_of_mem _ hx)
      by_cases ht : labelTrigger l
      · by_cases hc : hasColon l
        · have hlab : isLabelLine l = true := by simp [isLabelLine, ht, hc]
          have hne : labelOf l ≠ k := hrest l (List.mem_cons_self _ _) hlab
          show dictGet (bbmGo (l :: rest1) blocks cur) k = dictGet blocks k
          simp only [bbmGo, ht, hc, if_true]
          cases cur with
          | none =>
              exact ih blocks (some (labelOf l, []))
                (fun k2 ins2 h => by cases h; exact hne) hrest1
          | some p =>
              obtain ⟨k1, ins⟩ := p
              rw [ih (dictInsert k1 ins blocks) (some (labelOf l, []))
                (fun k2 ins2 h => by cases h; exact hne) hrest1]
              exact dictGet_insert_ne k1 k ins (hcur k1 ins rfl) blocks
        · show dictGet (bbmGo (l :: rest1) blocks cur) k = dictGet blocks k
          simp only [bbmGo, ht, hc, Bool.false_eq_true, if_false, if_true]
          exact ih blocks cur hcur hrest1
      · show dictGet (bbmGo (l :: rest1) blocks cur) k = dictGet blocks k
        simp only [bbmGo, ht, Bool.false_eq_true, if_false]
        cases cur with
        | none => exact ih blocks none (fun k2 ins2 h => nomatch h) hrest1
        | some p =>
            obtain ⟨k1, ins⟩ := p
            exact ih blocks (some (k1, ins ++ [l]))
              (fun k2 ins2 h => by cases h; exact hcur k1 ins rfl) hrest1

/-- Counterexample to C2 as stated: `entry:` is a bare identifier followed by
a colon, but the builder only treats a line as a label when its stripped text
starts with a digit or contains `safe_` or `fault_`, so no block is started
and the whole map is empty. -/
theorem build_block_map_bare_label_cex :
    build_block_map ["entry:\n", "  ret i32 0\n"] = []
  ∧ hasColon "entry:\n" = true
  ∧ labelTrigger "entry:\n" = false := by decide

/-- Amended C2.  A new block starts at every line whose stripped text is
nonempty, starts with a digit or contains `safe_` or `fault_`, and contains a
colon (the label is the stripped text before the first colon) - not at every
bare identifier followed by a colon.  Statements before the first such label
line are excluded from the map, and the statements assigned to a block are
the following lines up to the next label line, except that lines passing the
digit-or-`safe_`/`fault_` test without a colon are dropped rather than
assigned. -/
theorem build_block_map_amended :
    (∀ lines : List String, (∀ l ∈ lines, isLabelLine l = false) → build_block_map lines = [])
  ∧ (∀ (pre body rest : List String) (lab : String),
      (∀ l ∈ pre, isLabelLine l = false) →
      isLabelLine lab = true →
      (∀ l ∈ body, isLabelLine l = false) →
      (rest = [] ∨ isLabelLine (rest.headD "") = true) →
      (∀ l ∈ rest, isLabelLine l = true → labelOf l ≠ labelOf lab) →
      dictGet (build_block_map (pre ++ lab :: (body ++ rest))) (labelOf lab)
        = body.filter (fun l => !labelTrigger l)) := by
  constructor
  · intro lines h
    have h2 := bbm_skip [] [] lines h
    simpa [build_block_map] using h2
  · intro pre body rest lab hpre hlab hbody hrest hnodup
    simp only [isLabelLine, Bool.and_eq_true] at hlab
    obtain ⟨ht, hc⟩ := hlab
    unfold build_block_map
    rw [bbm_skip _ _ pre hpre]
    show dictGet (bbmGo (lab :: (body ++ rest)) [] none) (labelOf lab)
        = body.filter (fun l => !labelTrigger l)
    simp only [bbmGo, ht, hc, if_true]
    rw [bbm_body rest [] (labelOf lab) body [] hbody]
    rcases hrest with hnil | hhead
    · subst hnil
      show dictGet (bbmGo [] [] (some (labelOf lab, _))) (labelOf lab) = _
      show dictGet (dictInsert (labelOf lab) _ []) (labelOf lab) = _
      rw [dictGet_insert_self]
      simp
    · obtain ⟨r, rest2, hr⟩ : ∃ r rest2, rest = r :: rest2 := by
        cases rest with
        | nil => exact absurd hhead (by decide)
        | cons r rest2 => exact ⟨r, rest2, rfl⟩
      subst hr
      have hlabr : isLabelLine r = true := by simpa using hhead
      have hr2 : labelTrigger r = true ∧ hasColon r = true := by
        simpa [isLabelLine, Bool.and_eq_true] using hlabr
      show dictGet (bbmGo (r :: rest2) [] (some (labelOf lab, _))) (labelOf lab) = _
      simp only [bbmGo, hr2.1, hr2.2, if_true]
      rw [bbm_preserve (labelOf lab) rest2 _ (some (labelOf r, []))
        (fun k2 ins2 h => by
          cases h
          exact hnodup r (List.mem_cons_self _ _) hlabr)
        (fun x hx hxl => hnodup x (List.mem_cons_of_mem _ hx) hxl)]
      rw [dictGet_insert_self]
      simp

/-- Witness for the amended C2: a label-free unit maps to the empty map, and
a digit label between non-label lines owns exactly the lines up to the next
label. -/
theorem build_block_map_amended_witness :
    build_block_map ["alpha\n"] = []
  ∧ dictGet (build_block_map (["%x = add\n"] ++ "10:\n" :: (["  addl\n"] ++ ["20:\n"])))
      (labelOf "10:\n") = ["  addl\n"].filter (fun l => !labelTrigger l) :=
  ⟨build_block_map_amended.1 ["alpha\n"] (by decide),
   build_block_map_amended.2 ["%x = add\n"] ["  addl\n"] ["20:\n"] "10:\n"
     (by decide) (by decide) (by decide) (Or.inr (by decide)) (by decide)⟩

/-! ## Abort-declaration counting lemmas and the singleton claim -/

/-- A string starting with a character other than a newline differs from the
abort declaration, which starts with a newline. -/
lemma append_ne_abortDecl (a b : String) (c : Char) (cs : List Char)
    (ha : a.data = c :: cs) (hc : c ≠ '\n') : a ++ b ≠ abortDecl := by
  intro h
  have hd : (a ++ b).data = abortDecl.data := congrArg String.data h
  rw [show (a ++ b).data = a.data ++ b.data from rfl, ha] at hd
  have h1 : ((c :: cs) ++ b.data).head? = abortDecl.data.head? := congrArg List.head? hd
  have h2 : abortDecl.data.head? = some '\n' := rfl
  rw [h2] at h1
  simp at h1
  exact hc h1

/-- The duplicate line never equals the abort declaration. -/
lemma dupLine_ne (regc : Nat) (info : CmpInfo) : dupLine regc info ≠ abortDecl :=
  append_ne_abortDecl "  " _ ' ' [' '] rfl (by decide)

/-- The verification line never equals the abort declaration. -/
lemma verLine_ne (regc : Nat) (info : CmpInfo) : verLine regc info ≠ abortDecl :=
  append_ne_abortDecl "  " _ ' ' [' '] rfl (by decide)

/-- No line of a safe/fault block pair equals the abort declaration. -/
lemma protLines_count (vreg res tl fl : String) (blkc : Nat) :
    (protLines vreg res tl fl blkc).count abortDecl = 0 := by
  rw [List.count_eq_zero]
  intro hmem
  simp only [protLines, List.mem_cons, List.not_mem_nil, or_false] at hmem
  rcases hmem with h | h | h | h | h | h
  · exact append_ne_abortDecl "  br i1 " _ ' ' " br i1 ".data rfl (by decide) h.symm
  · exact append_ne_abortDecl "safe_" _ 's' "afe_".data rfl (by decide) h.symm
  · exact append_ne_abortDecl "  br i1 " _ ' ' " br i1 ".data rfl (by decide) h.symm
  · exact append_ne_abortDecl "fault_" _ 'f' "ault_".data rfl (by decide) h.symm
  · exact absurd h (by decide)
  · exact absurd h (by decide)

/-- Every line tagged for the output loop is an input line. -/
lemma tagAux_fst_mem (prot : List CmpInfo) :
    ∀ (lines : List String) (i : Nat) (p : String × Option CmpInfo),
      p ∈ tagAux prot lines i → p.1 ∈ lines := by
  intro lines
  induction lines with
  | nil =>
      intro i p hp
      simp [tagAux] at hp
  | cons l rest ih =>
      intro i p hp
      simp only [tagAux, List.mem_cons] at hp
      rcases hp with rfl | hp
      · exact List.mem_cons_self _ _
      · exact List.mem_cons_of_mem _ (ih (i + 1) p hp)

/-- The output loop emits the abort declaration at most once, and never
when the flag is already set, provided no copied line equals it. -/
lemma injGo_count_le :
    ∀ (tagged : List (String × Option CmpInfo)) (mode : Option (String × String))
      (added : Bool) (regc blkc : Nat) (out : List String),
      (∀ p ∈ tagged, p.1 ≠ abortDecl) →
      injGo tagged mode added regc blkc = some out →
      out.count abortDecl ≤ (if added = true then 0 else 1) := by
  intro tagged
  induction tagged with
  | nil =>
      intro mode added regc blkc out _ hinj
      have : ([] : List String) = out := Option.some.inj hinj
      subst this
      simp
  | cons q rest ih =>
      intro mode added regc blkc out htag hinj
      obtain ⟨line, tag⟩ := q
      have hline : line ≠ abortDecl := htag (line, tag) (List.mem_cons_self _ _)
      have htag1 : ∀ p ∈ rest, p.1 ≠ abortDecl :=
        fun p hp => htag p (List.mem_cons_of_mem _ hp)
      cases mode with
      | some rv =>
          obtain ⟨res, vreg⟩ := rv
          simp only [injGo] at hinj
          by_cases hbm : branchMatch res line
          · rw [if_pos hbm] at hinj
            by_cases hlen : 6 < (pySplit line).length
            · rw [if_pos hlen] at hinj
              rcases hrec : injGo rest none added regc (blkc + 1) with _ | out1
              · rw [hrec] at hinj
                exact absurd hinj (by simp)
              · rw [hrec] at hinj
                have hout := Option.some.inj hinj
                subst hout
                rw [List.count_append, protLines_count]
                simpa using ih none added regc (blkc + 1) out1 htag1 hrec
            · rw [if_neg hlen] at hinj
              exact absurd hinj (by simp)
          · rw [if_neg hbm] at hinj
            rcases hrec : injGo rest (some (res, vreg)) added regc blkc with _ | out1
            · rw [hrec] at hinj
              exact absurd hinj (by simp)
            · rw [hrec] at hinj
              have hout := Option.some.inj hinj
              subst hout
              have h1 := ih (some (res, vreg)) added regc blkc out1 htag1 hrec
              simpa [List.count_cons, hline] using h1
      | none =>
          cases tag with
          | some info =>
              simp only [injGo] at hinj
              by_cases htr : (pyContains "target triple" line && !added) = true
              · rw [if_pos htr] at hinj
                rcases hrec : injGo rest none true regc blkc with _ | out1
                · rw [hrec] at hinj
                  exact absurd hinj (by simp)
                · rw [hrec] at hinj
                  have hout := Option.some.inj hinj
                  subst hout
                  have hadded : added = false := by
                    rcases Bool.and_eq_true_iff.mp htr with ⟨_, h2⟩
                    simpa using h2
                  subst hadded
                  have h1 := ih none true regc blkc out1 htag1 hrec
                  rw [if_pos rfl] at h1
                  have h0 : out1.count abortDecl = 0 := Nat.le_zero.mp h1
                  simp [List.count_cons, hline, h0]
              · rw [if_neg htr] at hinj
                rcases hrec : injGo rest (some (info.result, verifyReg regc)) added
                    (regc + 2) blkc with _ | out1
                · rw [hrec] at hinj
                  exact absurd hinj (by simp)
                · rw [hrec] at hinj
                  have hout := Option.some.inj hinj
                  subst hout
                  have h1 := ih (some (info.result, verifyReg regc)) added (regc + 2) blkc
                    out1 htag1 hrec
                  simpa [List.count_cons, hline, dupLine_ne regc info, verLine_ne regc info]
                    using h1
          | none =>
              simp only [injGo] at hinj
              by_cases htr : (pyContains "target triple" line && !added) = true
              · rw [if_pos htr] at hinj
                rcases hrec : injGo rest none true regc blkc with _ | out1
                · rw [hrec] at hinj
                  exact absurd hinj (by simp)
                · rw [hrec] at hinj
                  have hout := Option.some.inj hinj
                  subst hout
                  have hadded : added = false := by
                    rcases Bool.and_eq_true_iff.mp htr with ⟨_, h2⟩
                    simpa using h2
                  subst hadded
                  have h1 := ih none true regc blkc out1 htag1 hrec
                  rw [if_pos rfl] at h1
                  have h0 : out1.count abortDecl = 0 := Nat.le_zero.mp h1
                  simp [List.count_cons, hline, h0]
              · rw [if_neg htr] at hinj
                rcases hrec : injGo rest none added regc blkc with _ | out1
                · rw [hrec] at hinj
                  exact absurd hinj (by simp)
                · rw [hrec] at hinj
                  have hout := Option.some.inj hinj
                  subst hout
                  have h1 := ih none added regc blkc out1 htag1 hrec
                  simpa [List.count_cons, hline] using h1

/-- When no copied line contains the target-triple marker, the output loop
never emits the abort declaration at all. -/
lemma injGo_count_notriple :
    ∀ (tagged : List (String × Option CmpInfo)) (mode : Option (String × String))
      (added : Bool) (regc blkc : Nat) (out : List String),
      (∀ p ∈ tagged, p.1 ≠ abortDecl ∧ pyContains "target triple" p.1 = false) →
      injGo tagged mode added regc blkc = some out →
      out.count abortDecl = 0 := by
  intro tagged
  induction tagged with
  | nil =>
      intro mode added regc blkc out _ hinj
      have : ([] : List String) = out := Option.some.inj hinj
      subst this
      simp
  | cons q rest ih =>
      intro mode added regc blkc out htag hinj
      obtain ⟨line, tag⟩ := q
      obtain ⟨hline, hnt⟩ := htag (line, tag) (List.mem_cons_self _ _)
      have htag1 : ∀ p ∈ rest, p.1 ≠ abortDecl ∧ pyContains "target triple" p.1 = false :=
        fun p hp => htag p (List.mem_cons_of_mem _ hp)
      cases mode with
      | some rv =>
          obtain ⟨res, vreg⟩ := rv
          simp only [injGo] at hinj
          by_cases hbm : branchMatch res line
          · rw [if_pos hbm] at hinj
            by_cases hlen : 6 < (pySplit line).length
            · rw [if_pos hlen] at hinj
              rcases hrec : injGo rest none added regc (blkc + 1) with _ | out1
              · rw [hrec] at hinj
                exact absurd hinj (by simp)
              · rw [hrec] at hinj
                have hout := Option.some.inj hinj
                subst hout
                rw [List.count_append, protLines_count]
                simpa using ih none added regc (blkc + 1) out1 htag1 hrec
            · rw [if_neg hlen] at hinj
              exact absurd hinj (by simp)
          · rw [if_neg hbm] at hinj
            rcases hrec : injGo rest (some (res, vreg)) added regc blkc with _ | out1
            · rw [hrec] at hinj
              exact absurd hinj (by simp)
            · rw [hrec] at hinj
              have hout := Option.some.inj hinj
              subst hout
              have h1 := ih (some (res, vreg)) added regc blkc out1 htag1 hrec
              simpa [List.count_cons, hline] using h1
      | none =>
          have htr : ¬ ((pyContains "target triple" line && !added) = true) := by
            simp [hnt]
          cases tag with
          | some info =>
              simp only [injGo] at hinj
              rw [if_neg htr] at hinj
              rcases hrec : injGo rest (some (info.result, verifyReg regc)) added
                  (regc + 2) blkc with _ | out1
              · rw [hrec] at hinj
                exact absurd hinj (by simp)
              · rw [hrec] at hinj
                have hout := Option.some.inj hinj
                subst hout
                have h1 := ih (some (info.result, verifyReg regc)) added (regc + 2) blkc
                  out1 htag1 hrec
                simpa [List.count_cons, hline, dupLine_ne regc info, verLine_ne regc info]
                  using h1
          | none =>
              simp only [injGo] at hinj
              rw [if_neg htr] at hinj
              rcases hrec : injGo rest none added regc blkc with _ | out1
              · rw [hrec] at hinj
                exact absurd hinj (by simp)
              · rw [hrec] at hinj
                have hout := Option.some.inj hinj
                subst hout
                have h1 := ih none added regc blkc out1 htag1 hrec
                simpa [List.count_cons, hline] using h1

/-- Amended C3.  For every input unit whose lines do not literally equal the
declaration entry, the abort-primitive declaration appears at most once in
the output, exactly once immediately after the first line when that line
carries the target/platform declaration, and never when no line carries it:
in particular it is not emitted on first use when the target declaration is
absent, even though abort calls may be emitted. -/
theorem abort_decl_amended :
    (∀ (lines : List String) (t : Nat) (out : List String),
        (∀ l ∈ lines, l ≠ abortDecl) →
        process_file lines t = some out → out.count abortDecl ≤ 1)
  ∧ (∀ (lines : List String) (t : Nat) (out : List String),
        (∀ l ∈ lines, l ≠ abortDecl ∧ pyContains "target triple" l = false) →
        process_file lines t = some out → out.count abortDecl = 0)
  ∧ (∀ (t : Nat) (out : List String) (first : String) (rest : List String),
        pyContains "target triple" first = true →
        (∀ l ∈ first :: rest, l ≠ abortDecl) →
        process_file (first :: rest) t = some out → out.count abortDecl = 1) := by
  refine ⟨?_, ?_, ?_⟩
  · intro lines t out hl hp
    rcases hscan : scanCmps lines t with _ | ap
    · rw [process_file, hscan] at hp
      exact absurd hp (by simp)
    · obtain ⟨all, prot⟩ := ap
      rw [process_file, hscan] at hp
      have htag : ∀ p ∈ tagLines lines prot, p.1 ≠ abortDecl :=
        fun p hp2 => hl p.1 (tagAux_fst_mem prot lines 0 p hp2)
      simpa using injGo_count_le (tagLines lines prot) none false 1000 100 out htag hp
  · intro lines t out hl hp
    rcases hscan : scanCmps lines t with _ | ap
    · rw [process_file, hscan] at hp
      exact absurd hp (by simp)
    · obtain ⟨all, prot⟩ := ap
      rw [process_file, hscan] at hp
      have htag : ∀ p ∈ tagLines lines prot,
          p.1 ≠ abortDecl ∧ pyContains "target triple" p.1 = false :=
        fun p hp2 => hl p.1 (tagAux_fst_mem prot lines 0 p hp2)
      exact injGo_count_notriple (tagLines lines prot) none false 1000 100 out htag hp
  · intro t out first rest htriple hl hp
    have hfirst : first ≠ abortDecl := hl first (List.mem_cons_self _ _)
    rcases hscan : scanCmps (first :: rest) t with _ | ap
    · rw [process_file, hscan] at hp
      exact absurd hp (by simp)
    · obtain ⟨all, prot⟩ := ap
      rw [process_file, hscan] at hp
      have htag1 : ∀ p ∈ tagAux prot rest 1, p.1 ≠ abortDecl :=
        fun p hp2 => hl p.1 (List.mem_cons_of_mem _ (tagAux_fst_mem prot rest 1 p hp2))
      have hp2 : injGo ((first, prot.find? (fun c => c.line_num == 0)) :: tagAux prot rest 1)
          none false 1000 100 = some out := hp
      simp only [injGo] at hp2
      rw [if_pos (by simp [htriple])] at hp2
      rcases hrec : injGo (tagAux prot rest 1) none true 1000 100 with _ | out1
      · rw [hrec] at hp2
        exact absurd hp2 (by simp)
      · rw [hrec] at hp2
        have hout := Option.some.inj hp2
        subst hout
        have h1 := injGo_count_le (tagAux prot rest 1) none true 1000 100 out1 htag1 hrec
        rw [if_pos rfl] at h1
        have h0 : out1.count abortDecl = 0 := Nat.le_zero.mp h1
        simp [List.count_cons, hfirst, h0]

/-- Witness for the amended C3: a one-line unit carrying the target triple
produces exactly one declaration entry. -/
theorem abort_decl_amended_witness :
    (["target triple = x\n", abortDecl] : List String).count abortDecl = 1 :=
  abort_decl_amended.2.2 50 ["target triple = x\n", abortDecl] "target triple = x\n" []
    (by decide) (by decide) (by decide)

/-! ## Verification pipeline claim -/

/-- Amended C5.  Provided the original unit has at least one countable line
(otherwise the summary divides by zero and the pipeline crashes,
`run_verification_zero_original_cex`), the overall result is pass exactly
when the protected unit contains an abort call, a duplicate identifier and a
verify identifier and at least one abort call survives in the optimizer
output; surviving duplicates do not appear in the condition (their absence
is only a warning), and zero surviving abort calls always fails with
`abort_calls_optimized` recorded as 0. -/
theorem run_verification_pass_iff (original protectedIR optIR : String)
    (h0 : count_lines original ≠ 0) :
    ((run_verification original protectedIR (some optIR)).map Prod.fst = some true
       ↔ (0 < countOccStr "call void @abort" protectedIR
          ∧ 0 < countDupIds protectedIR
          ∧ 0 < countVerifyIds protectedIR
          ∧ 0 < countOccStr "call void @abort" optIR))
  ∧ (countOccStr "call void @abort" optIR = 0 →
       ∃ r, run_verification original protectedIR (some optIR) = some (false, r)
         ∧ r.abort_calls_optimized = 0) := by
  constructor
  · rcases Nat.eq_zero_or_pos (countOccStr "call void @abort" protectedIR) with ha | ha
    · simp [run_verification, verify_protected_ir, ha]
    · rcases Nat.eq_zero_or_pos (countDupIds protectedIR) with hd | hd
      · simp [run_verification, verify_protected_ir, ha.ne', hd]
      · rcases Nat.eq_zero_or_pos (countVerifyIds protectedIR) with hv | hv
        · simp [run_verification, verify_protected_ir, ha.ne', hd.ne', hv]
        · rcases Nat.eq_zero_or_pos (countOccStr "call void @abort" optIR) with ho | ho
          · simp [run_verification, verify_protected_ir, verify_optimized_ir,
              ha.ne', hd.ne', hv.ne', ho]
          · simp [run_verification, verify_protected_ir, verify_optimized_ir, print_summary,
              ha.ne', hd.ne', hv.ne', ho.ne', h0, ha, hd, hv, ho]
  · intro hz
    rcases Nat.eq_zero_or_pos (countOccStr "call void @abort" protectedIR) with ha | ha
    · refine ⟨{ initResults with
          abort_calls_protected := countOccStr "call void @abort" protectedIR }, ?_, rfl⟩
      simp [run_verification, verify_protected_ir, ha]
    · rcases Nat.eq_zero_or_pos (countDupIds protectedIR) with hd | hd
      · refine ⟨{ initResults with
            abort_calls_protected := countOccStr "call void @abort" protectedIR,
            duplicate_cmp_protected := countDupIds protectedIR }, ?_, rfl⟩
        simp [run_verification, verify_protected_ir, ha.ne', hd]
      · rcases Nat.eq_zero_or_pos (countVerifyIds protectedIR) with hv | hv
        · refine ⟨{ initResults with
              abort_calls_protected := countOccStr "call void @abort" protectedIR,
              duplicate_cmp_protected := countDupIds protectedIR }, ?_, rfl⟩
          simp [run_verification, verify_protected_ir, ha.ne', hd.ne', hv]
        · refine ⟨{ initResults with
              abort_calls_protected := countOccStr "call void @abort" protectedIR,
              duplicate_cmp_protected := countDupIds protectedIR,
              protected_size := count_lines protectedIR,
              abort_calls_optimized := 0 }, ?_, rfl⟩
          simp [run_verification, verify_protected_ir, verify_optimized_ir,
            ha.ne', hd.ne', hv.ne', hz]

/-- Witness for the amended C5 at a nonempty original unit with all
artifacts present and a surviving abort call. -/
theorem run_verification_pass_iff_witness :
    ((run_verification origOneLine protArtifacts (some optWithAbort)).map Prod.fst = some true
       ↔ (0 < countOccStr "call void @abort" protArtifacts
          ∧ 0 < countDupIds protArtifacts
          ∧ 0 < countVerifyIds protArtifacts
          ∧ 0 < countOccStr "call void @abort" optWithAbort))
  ∧ (countOccStr "call void @abort" optWithAbort = 0 →
       ∃ r, run_verification origOneLine protArtifacts (some optWithAbort) = some (false, r)
         ∧ r.abort_calls_optimized = 0) :=
  run_verification_pass_iff origOneLine protArtifacts optWithAbort (by decide)
